import Mathlib

/-!
# DNS-over-QUIC upstream: pkg/upstream/doq/upstream.go

A shallow embedding of the DoQ upstream transport.  Heap objects of type
lazyConn are cells of a list, a pointer to one is its index.  Steps that Go
runs under a mutex are single functions on the world, so that an
interleaving of goroutines is a sequence of such steps.  Whatever the
network, the clock, the Go scheduler and the quic library decide is an
explicit argument of the step that consumes it.  A Go run-time fault
(nil dereference, index out of range, close of a closed channel) is the
result none, or the constructor fault.
-/

namespace Doq

/-- Go error values; a nil error is Option.none. -/
inductive GoError where
  | errClosed
  | canceled
  | deadlineExceeded
  | other (code : Nat)
  deriving DecidableEq, Repr

/-- A wall-clock instant in nanoseconds since the Unix epoch (time.Time without a
monotonic reading counts the same way). -/
abbrev Time := Int

/-- A time.Duration, in nanoseconds. -/
abbrev Duration := Int

def Second : Duration := 1000000000

def defaultDoQTimeout : Duration := Second * 5
def dialTimeout : Duration := Second * 3
def connectionLostThreshold : Duration := Second * 5
def handshakeTimeout : Duration := Second * 3

def maxDuration : Duration := 9223372036854775807
def minDuration : Duration := -9223372036854775808

/-- Go time.Time.Sub: the difference, saturated to the int64 range of Duration. -/
def timeSub (t u : Time) : Duration :=
  if maxDuration < t - u then maxDuration
  else if t - u < minDuration then minDuration
  else t - u

/-- Go time.Time.UnixMilli: whole milliseconds since the epoch, rounded down. -/
def unixMilli (t : Time) : Int := t / 1000000

/-- Go time.UnixMilli: the instant of a millisecond count. -/
def timeOfUnixMilli (ms : Int) : Time := ms * 1000000

/-- Calls that leave the embedded code, newest first. -/
inductive Call where
  | asyncDialConn (lc : Nat)
  | cancelDial (lc : Nat)
  | lazyConnClose (lc : Nat)
  | closeDialFinished (lc : Nat)
  | closeWithError (conn : Nat)
  | transportClose
  | setDeadline (s : Nat)
  | write (s : Nat) (payload : List Nat)
  | readMsg (s : Nat)
  | streamClose (s : Nat)
  | releaseBuf (payload : List Nat)
  deriving DecidableEq, Repr

/-- The Go struct lazyConn.  The channel dialFinished is true once closed; the
connection c is a handle of the quic library. -/
structure lazyConn where
  closed : Bool
  dialFinished : Bool
  c : Option Nat
  err : Option GoError
  latestRecvMs : Int
  deriving DecidableEq, Repr

/-- The Go struct Upstream, its mutable part: the pointer lc. -/
structure Upstream where
  lc : Option Nat
  deriving DecidableEq, Repr

/-- The state the code runs in. -/
structure World where
  u : Upstream
  heap : List lazyConn
  connErr : List (Nat × GoError)
  log : List Call
  deriving DecidableEq, Repr

/-- Go c.Context().Err() of a quic connection. -/
def connContextErr (w : World) (conn : Nat) : Option GoError :=
  w.connErr.lookup conn

/-- Go c.CloseWithError(0, ""): the call returns once the context of the connection is
done; a context that already ended keeps its error. -/
def CloseWithError (w : World) (conn : Nat) : World :=
  { w with
    connErr := match w.connErr.lookup conn with
      | some _ => w.connErr
      | none => (conn, GoError.canceled) :: w.connErr
    log := Call.closeWithError conn :: w.log }

/-- Number of dials started: calls of asyncDialConn in the log. -/
def dialCount (w : World) : Nat :=
  w.log.countP (fun e => match e with | Call.asyncDialConn _ => true | _ => false)

/-- Number of times the buffer was handed back to the pool. -/
def releaseCount (w : World) (payload : List Nat) : Nat :=
  w.log.count (Call.releaseBuf payload)

/-- Number of calls of lazyConn.close on a lazyConn. -/
def closeCallCount (w : World) (i : Nat) : Nat :=
  w.log.count (Call.lazyConnClose i)

/-- Number of times the channel dialFinished of a lazyConn was closed. -/
def signalCloseCount (w : World) (i : Nat) : Nat :=
  w.log.count (Call.closeDialFinished i)

/-- Go close(lc.dialFinished): closing a closed channel is a run-time fault. -/
def closeSignal (lc : lazyConn) : Option lazyConn :=
  if lc.dialFinished then none else some { lc with dialFinished := true }

/-- The method lazyConn.saveLatestRespRecvTime. -/
def saveLatestRespRecvTime (lc : lazyConn) (t : Time) : lazyConn :=
  { lc with latestRecvMs := unixMilli t }

/-- The method lazyConn.latestRespRecvTime. -/
def latestRespRecvTime (lc : lazyConn) : Time :=
  timeOfUnixMilli lc.latestRecvMs

/-- The lazyConn that asyncDialConn allocates. -/
def newLazyConn : lazyConn :=
  { closed := false, dialFinished := false, c := none, err := none, latestRecvMs := 0 }

/-- The method Upstream.asyncDialConn, up to the go statement: allocates the lazyConn and
returns the pointer.  The goroutine it spawns is dialGoroutine. -/
def asyncDialConn (w : World) : World × Nat :=
  ({ w with heap := w.heap ++ [newLazyConn],
            log := Call.asyncDialConn w.heap.length :: w.log }, w.heap.length)

/-- The method lazyConn.close. -/
def lazyConnClose (w : World) (i : Nat) : Option World :=
  match w.heap[i]? with
  | none => none
  | some lc =>
    let w0 := { w with log := Call.lazyConnClose i :: w.log }
    if lc.closed then some w0
    else
      let lc1 := { lc with closed := true }
      let w1 := { w0 with heap := w0.heap.set i lc1 }
      if lc1.dialFinished then
        match lc1.c with
        | some conn => some (CloseWithError w1 conn)
        | none => some w1
      else
        let lc2 := { lc1 with err := some GoError.errClosed }
        match closeSignal lc2 with
        | none => none
        | some lc3 =>
          some { w1 with heap := w1.heap.set i lc3,
                         log := Call.closeDialFinished i :: Call.cancelDial i :: w1.log }

/-- The method lazyConn.queryFailedAndCloseIfConnLost.  Its parameter t is not read:
the body calls time.Since, which reads the clock again; now is that reading. -/
def queryFailedAndCloseIfConnLost (w : World) (i : Nat) (_t : Time) (now : Time) :
    Option World :=
  match w.heap[i]? with
  | none => none
  | some lc =>
    if connectionLostThreshold < timeSub now (latestRespRecvTime lc) then lazyConnClose w i
    else some w

/-- The locked tail of the dial goroutine: publish the outcome, or discard it when the
lazyConn was closed meanwhile. -/
def publish (w : World) (i : Nat) (c : Option Nat) (err : Option GoError) (now : Time) :
    Option World :=
  match w.heap[i]? with
  | none => none
  | some lc =>
    if lc.closed then
      match c with
      | some conn => some (CloseWithError w conn)
      | none => some w
    else
      let lc1 := match err with
        | some e => { lc with err := some e }
        | none => saveLatestRespRecvTime { lc with c := c } now
      match closeSignal lc1 with
      | none => none
      | some lc2 =>
        some { w with heap := w.heap.set i lc2, log := Call.closeDialFinished i :: w.log }

/-- What the resolver, the quic library and the scheduler hand to one dial goroutine. -/
structure DialEnv where
  /-- the error of net.ResolveUDPAddr -/
  resolveErr : Option GoError
  /-- the early connection returned by DialEarly -/
  ec : Option Nat
  /-- the error returned by DialEarly -/
  dialErr : Option GoError
  /-- the select: some cause when ctx.Done wins, none when HandshakeComplete wins -/
  ctxDone : Option GoError
  /-- the result of ec.NextConnection() -/
  next : Option Nat
  /-- the clock at the publish step -/
  now : Time
  deriving DecidableEq, Repr

/-- The goroutine started by asyncDialConn, run to its end on the lazyConn i. -/
def dialGoroutine (w : World) (i : Nat) (env : DialEnv) : Option World :=
  let cancel := fun (x : World) => { x with log := Call.cancelDial i :: x.log }
  match env.resolveErr with
  | some e =>
    match w.heap[i]? with
    | none => none
    | some lc => some (cancel { w with heap := w.heap.set i { lc with err := some e } })
  | none =>
    let r : World × Option Nat × Option GoError :=
      match env.ec with
      | some ec =>
        match env.ctxDone with
        | some cause => (CloseWithError w ec, none, some cause)
        | none => (w, env.next, env.dialErr)
      | none => (w, none, env.dialErr)
    (publish r.1 i r.2.1 r.2.2 env.now).map cancel

/-- How a call of the embedded code ends. -/
inductive Run (α : Type) where
  /-- the call returns a value and leaves a world -/
  | done (a : α) (w : World)
  /-- the call waits in a select none of whose cases is ready -/
  | blocked (w : World)
  /-- a Go run-time fault -/
  | fault
  deriving Repr

/-- The statement u.lc = u.asyncDialConn(). -/
def redial (w : World) : World :=
  { (asyncDialConn w).1 with u := { lc := some (asyncDialConn w).2 } }

/-- The locked check-and-replace section of Upstream.newStream (from u.cm.Lock to the
assignment lc = u.lc). -/
def checkAndReplace (w : World) : Option World :=
  match w.u.lc with
  | none => some (redial w)
  | some i =>
    match w.heap[i]? with
    | none => none
    | some lc =>
      if lc.dialFinished then
        if lc.err.isSome then some (redial w)
        else
          match lc.c with
          | none => none
          | some conn => if (connContextErr w conn).isSome then some (redial w) else some w
      else some w

/-- What the caller's context, the scheduler, the quic library and the clock hand to the
select of one newStream call. -/
structure StreamEnv where
  /-- ctx.Err() at the select: none while ctx is not done -/
  ctxErr : Option GoError
  /-- the branch taken when both cases are ready: true for dialFinished -/
  pickDial : Bool
  /-- the result of lc.c.OpenStream() -/
  openStream : Except GoError Nat
  /-- the argument time.Now() of queryFailedAndCloseIfConnLost -/
  tArg : Time
  /-- the clock read by time.Since inside it -/
  now : Time
  deriving Repr

/-- The triple returned by newStream: stream, lazyConn pointer, error. -/
abbrev StreamRet := Option Nat × Option Nat × Option GoError

/-- The select of Upstream.newStream on the lazyConn i the call took under the lock. -/
def waitDial (w : World) (i : Nat) (env : StreamEnv) : Run StreamRet :=
  match w.heap[i]? with
  | none => Run.fault
  | some lc =>
    let finished : Run StreamRet :=
      match lc.c with
      | none => Run.done (none, none, lc.err) w
      | some _ =>
        match env.openStream with
        | Except.error e =>
          match queryFailedAndCloseIfConnLost w i env.tArg env.now with
          | none => Run.fault
          | some w1 => Run.done (none, none, some e) w1
        | Except.ok s => Run.done (some s, some i, none) w
    match lc.dialFinished, env.ctxErr with
    | false, none => Run.blocked w
    | false, some e => Run.done (none, none, some e) w
    | true, none => finished
    | true, some e => if env.pickDial then finished else Run.done (none, none, some e) w

/-- The method Upstream.newStream: the locked section, then the select. -/
def newStream (w : World) (env : StreamEnv) : Run StreamRet :=
  match checkAndReplace w with
  | none => Run.fault
  | some w1 =>
    match w1.u.lc with
    | none => Run.fault
    | some i => waitDial w1 i env

/-- The method Upstream.Close: it returns u.t.Close().  What the quic transport does
to its connections on Close is the argument tClose. -/
def UpstreamClose (w : World)
    (tClose : List (Nat × GoError) → List (Nat × GoError) × Option GoError) :
    World × Option GoError :=
  ({ w with connErr := (tClose w.connErr).1, log := Call.transportClose :: w.log },
   (tClose w.connErr).2)

/-- A dns.Msg: the header field Id (a uint16) and everything else. -/
structure Msg where
  Id : Nat
  rest : List Nat
  deriving DecidableEq, Repr

/-- The assignment (*payload)[2], (*payload)[3] = 0, 0; an index out of range is a
run-time fault. -/
def zeroID (payload : List Nat) : Option (List Nat) :=
  if 3 < payload.length then some ((payload.set 2 0).set 3 0) else none

/-- What the environment hands to one ExchangeContext call. -/
structure ExchangeEnv where
  /-- for the newStream call -/
  stream : StreamEnv
  /-- the error of s.Write -/
  writeErr : Option GoError
  /-- the message returned by dnsutils.ReadMsgFromTCP -/
  readResp : Option Msg
  /-- the error returned by dnsutils.ReadMsgFromTCP -/
  readErr : Option GoError
  /-- the clock in the exchange goroutine: the argument time.Now() -/
  tArg : Time
  /-- the clock in the exchange goroutine: read by time.Since, or saved on success -/
  now : Time
  /-- context.Cause(ctx) at the last select: none while ctx is not done -/
  ctxCause : Option GoError
  /-- the branch taken when both cases are ready: true for ctx.Done -/
  pickCtx : Bool
  deriving Repr

/-- The method Upstream.exchange on the stream s. -/
def exchange (w : World) (s : Nat) (payload : List Nat) (env : ExchangeEnv) :
    World × Option Msg × Option GoError :=
  let w1 := { w with log := Call.write s payload :: Call.setDeadline s :: w.log }
  match env.writeErr with
  | some e => (w1, none, some e)
  | none =>
    let w2 := { w1 with log := Call.readMsg s :: w1.log }
    match env.readErr with
    | some e => (w2, none, some e)
    | none => (w2, env.readResp, none)

/-- The goroutine of ExchangeContext, run to its end: the exchange, the bookkeeping on
the lazyConn, then the deferred s.Close() and pool.ReleaseBuf(payload). -/
def exchangeGoroutine (w : World) (s i : Nat) (payload : List Nat) (env : ExchangeEnv) :
    Option (World × Option Msg × Option GoError) :=
  let r := exchange w s payload env
  let kept : Option World :=
    match r.2.2 with
    | some _ => queryFailedAndCloseIfConnLost r.1 i env.tArg env.now
    | none =>
      match r.1.heap[i]? with
      | none => none
      | some lc => some { r.1 with heap := r.1.heap.set i (saveLatestRespRecvTime lc env.now) }
  kept.map (fun w1 =>
    ({ w1 with log := Call.releaseBuf payload :: Call.streamClose s :: w1.log }, r.2.1, r.2.2))

/-- The method Upstream.ExchangeContext.  The argument pack is pool.PackTCPBuffer.  The
goroutine is run to its end also when the context wins the last select. -/
def ExchangeContext (pack : Msg → Except GoError (List Nat)) (w : World) (q : Msg)
    (env : ExchangeEnv) : Run (Option Msg × Option GoError) :=
  match pack q with
  | Except.error e => Run.done (none, some e) w
  | Except.ok buf =>
    match zeroID buf with
    | none => Run.fault
    | some payload =>
      match newStream w env.stream with
      | Run.fault => Run.fault
      | Run.blocked w1 => Run.blocked w1
      | Run.done (_, _, some e) w1 => Run.done (none, some e) w1
      | Run.done (none, _, none) _ => Run.fault
      | Run.done (some _, none, none) _ => Run.fault
      | Run.done (some s, some i, none) w1 =>
        match exchangeGoroutine w1 s i payload env with
        | none => Run.fault
        | some (w2, resp, err) =>
          let fromRc : Run (Option Msg × Option GoError) :=
            match resp with
            | some m => Run.done (some { m with Id := q.Id }, err) w2
            | none => Run.done (none, err) w2
          match env.ctxCause with
          | some cause => if env.pickCtx then Run.done (none, some cause) w2 else fromRc
          | none => fromRc

/-! ## Runs and sample worlds -/

/-- The world right after the first newStream call ran its locked section on a fresh
Upstream: one lazyConn, dialing. -/
def dialingWorld : World :=
  { u := { lc := some 0 }, heap := [newLazyConn], connErr := [],
    log := [Call.asyncDialConn 0] }

/-- A dial in which net.ResolveUDPAddr fails. -/
def resolveFailure : DialEnv :=
  { resolveErr := some (GoError.other 1), ec := none, dialErr := none, ctxDone := none,
    next := none, now := 0 }

/-- A caller whose context is not done. -/
def patientCaller : StreamEnv :=
  { ctxErr := none, pickDial := true, openStream := Except.ok 0, tArg := 0, now := 0 }

/-- One step of an interleaving of newStream calls: a call runs its locked section, or
the call whose locked section was the k-th to run reaches its select. -/
inductive CallStep where
  | locked
  | wait (k : Nat) (env : StreamEnv)
  deriving Repr

/-- Runs an interleaving of newStream calls.  The list got holds, in the order of the
locked sections, the lazyConn pointer each call took.  A select step of a call that has
not run its locked section yet is no step. -/
def runCalls : List CallStep → World → List Nat → Option (World × List Nat)
  | [], w, got => some (w, got)
  | CallStep.locked :: rest, w, got =>
    match checkAndReplace w with
    | none => none
    | some w1 =>
      match w1.u.lc with
      | none => none
      | some i => runCalls rest w1 (got ++ [i])
  | CallStep.wait k env :: rest, w, got =>
    match got[k]? with
    | none => runCalls rest w got
    | some i =>
      match waitDial w i env with
      | Run.fault => none
      | Run.blocked w1 => runCalls rest w1 got
      | Run.done _ w1 => runCalls rest w1 got

/-- Number of locked sections in an interleaving: the number N of newStream calls. -/
def lockedCount (steps : List CallStep) : Nat :=
  steps.countP (fun s => match s with | CallStep.locked => true | _ => false)

/-- A fresh Upstream: no lazyConn yet. -/
def freshWorld : World :=
  { u := { lc := none }, heap := [], connErr := [], log := [] }

/-- A caller whose context was cancelled. -/
def cancelledCaller : StreamEnv :=
  { ctxErr := some GoError.canceled, pickDial := true, openStream := Except.ok 0,
    tArg := 0, now := 0 }

/-- A world whose lazyConn is connected (connection 7) and healthy. -/
def connectedWorld : World :=
  { u := { lc := some 0 },
    heap := [{ closed := false, dialFinished := true, c := some 7, err := none,
               latestRecvMs := 1000 }],
    connErr := [], log := [Call.closeDialFinished 0, Call.asyncDialConn 0] }

/-- A framing function standing for pool.PackTCPBuffer on the sample query: two length
octets, then the twelve header octets starting with the message ID. -/
def samplePack (q : Msg) : Except GoError (List Nat) :=
  Except.ok ([0, 12, q.Id / 256, q.Id % 256] ++ q.rest)

/-- A query with message ID 0xBEEF and the rest of a header. -/
def sampleQuery : Msg := { Id := 48879, rest := [1, 0, 0, 1, 0, 0, 0, 0, 0, 0] }

/-- An exchange that succeeds: the stream 3 opens, the write succeeds, and the
message read from the stream carries the ID 0. -/
def goodExchange : ExchangeEnv :=
  { stream := { ctxErr := none, pickDial := true, openStream := Except.ok 3,
                tArg := 2000000000, now := 2000000000 },
    writeErr := none, readResp := some { Id := 0, rest := [129, 128] }, readErr := none,
    tArg := 2500000000, now := 2500000000, ctxCause := none, pickCtx := false }

/-- The world the successful sample exchange leaves. -/
def afterGoodExchange : World :=
  { u := { lc := some 0 },
    heap := [{ closed := false, dialFinished := true, c := some 7, err := none,
               latestRecvMs := 2500 }],
    connErr := [],
    log := [Call.releaseBuf [0, 12, 0, 0, 1, 0, 0, 1, 0, 0, 0, 0, 0, 0],
            Call.streamClose 3, Call.readMsg 3,
            Call.write 3 [0, 12, 0, 0, 1, 0, 0, 1, 0, 0, 0, 0, 0, 0],
            Call.setDeadline 3, Call.closeDialFinished 0, Call.asyncDialConn 0] }

/-- Calls about the life of a lazyConn or of a connection, as opposed to calls that
move a query: stream calls and buffer release. -/
def Call.lifecycle : Call → Bool
  | Call.asyncDialConn _ => true
  | Call.cancelDial _ => true
  | Call.lazyConnClose _ => true
  | Call.closeDialFinished _ => true
  | Call.closeWithError _ => true
  | _ => false

/-- The second world logs the calls of the first, then lifecycle calls only. -/
def Grows (w w1 : World) : Prop :=
  ∃ added : List Call, w1.log = added ++ w.log ∧ ∀ c ∈ added, c.lifecycle = true

/-- The byte sequences handed to Write, with their stream, newest first. -/
def writes (w : World) : List (Nat × List Nat) :=
  w.log.filterMap (fun c => match c with | Call.write s p => some (s, p) | _ => none)

/-- A quic transport whose Close succeeds and finds no connection to end. -/
def quietTransportClose (l : List (Nat × GoError)) : List (Nat × GoError) × Option GoError :=
  (l, none)

/-- The condition for a new dial in the words of the specification: no lazy
connection yet, or the completion signal of the existing one is closed and either it
recorded an error or the context of its connection reports one. -/
def needsDial (w : World) : Bool :=
  match w.u.lc with
  | none => true
  | some i =>
    match w.heap[i]? with
    | none => false
    | some lc =>
      lc.dialFinished &&
        (lc.err.isSome ||
          match lc.c with
          | none => false
          | some conn => (connContextErr w conn).isSome)

/-- A dial that obtains the connection 7: the handshake completes. -/
def lateDial : DialEnv :=
  { resolveErr := none, ec := some 7, dialErr := none, ctxDone := none, next := some 7,
    now := 3000000000 }

/-- One operation on a lazyConn: a call of close, or the publish step of its dial
goroutine with the connection and error the dial produced. -/
inductive LcOp where
  | close
  | publish (c : Option Nat) (err : Option GoError) (now : Time)
  deriving Repr

/-- Runs one operation on the lazyConn i. -/
def lcStep (w : World) (i : Nat) : LcOp → Option World
  | LcOp.close => lazyConnClose w i
  | LcOp.publish c err now => publish w i c err now

/-- Runs a sequence of operations on the lazyConn i and returns the world after each. -/
def runOps : List LcOp → World → Nat → Option (List World)
  | [], _, _ => some []
  | op :: rest, w, i =>
    match lcStep w i op with
    | none => none
    | some w1 => (runOps rest w1 i).map (fun ws => w1 :: ws)

/-- Number of publish steps in a sequence of operations. -/
def publishCount (ops : List LcOp) : Nat :=
  ops.countP (fun op => match op with | LcOp.publish _ _ _ => true | _ => false)

/-- What the quic library guarantees of a dial that reaches the publish step: it hands
over a connection or an error. -/
def LcOp.hasOutcome : LcOp → Bool
  | LcOp.close => true
  | LcOp.publish c err _ => c.isSome || err.isSome

/-- Between two consecutive worlds: if the channel dialFinished of the lazyConn i was
closed in between, it was closed once, and in the later world exactly one of lc.c and
lc.err is set. -/
def ClosesWithOneOutcome (i : Nat) (w1 w2 : World) : Prop :=
  signalCloseCount w2 i ≠ signalCloseCount w1 i →
    signalCloseCount w2 i = signalCloseCount w1 i + 1 ∧
      ∃ lc, w2.heap[i]? = some lc ∧ lc.dialFinished = true ∧ lc.c.isSome ≠ lc.err.isSome

/-- A sequence of operations: close() during the dial, the late publish step with the
connection 7, and a second close(). -/
def closeDuringDial : List LcOp :=
  [LcOp.close, LcOp.publish (some 7) none 3000000000, LcOp.close]

/-! ## Theorems -/

/-- C1, the code at the failing input.  When net.ResolveUDPAddr fails, the dial
goroutine ends with the error stored in the lazyConn and every other field as it was:
the channel dialFinished is not closed by it, and the Upstream keeps its pointer. -/
theorem dialGoroutine_resolve_failure_keeps_signal (w : World) (i : Nat) (lc : lazyConn)
    (env : DialEnv) (e : GoError) (hlc : w.heap[i]? = some lc)
    (he : env.resolveErr = some e) :
    ∃ w1, dialGoroutine w i env = some w1 ∧
      w1.heap[i]? = some { lc with err := some e } ∧
      w1.u = w.u ∧ signalCloseCount w1 i = signalCloseCount w i := by
  have hi : i < w.heap.length := by
    rcases Nat.lt_or_ge i w.heap.length with h | h
    · exact h
    · rw [List.getElem?_eq_none h] at hlc; cases hlc
  simp only [dialGoroutine, he, hlc]
  refine ⟨_, rfl, ?_, rfl, ?_⟩
  · simp [hi]
  · simp [signalCloseCount]

/-- C1, the failing run: after the resolution failure the lazyConn holds an error while
dialFinished is still open, so a waiter whose context is not done stays blocked and the
next locked section keeps the lazyConn without starting a dial. -/
theorem dialGoroutine_resolve_failure_run :
    (∃ w1, dialGoroutine dialingWorld 0 resolveFailure = some w1 ∧
      w1.heap[0]? = some { newLazyConn with err := some (GoError.other 1) } ∧
      w1.u = dialingWorld.u ∧ signalCloseCount w1 0 = signalCloseCount dialingWorld 0) ∧
    ((dialGoroutine dialingWorld 0 resolveFailure).bind checkAndReplace).map
        (fun w => (w.u.lc, dialCount w, w.heap.map (fun lc => (lc.dialFinished, lc.err))))
      = some (some 0, 1, [(false, some (GoError.other 1))]) ∧
    ((dialGoroutine dialingWorld 0 resolveFailure).map
        (fun w => match newStream w patientCaller with
          | Run.blocked _ => true
          | _ => false)) = some true :=
  ⟨dialGoroutine_resolve_failure_keeps_signal dialingWorld 0 newLazyConn resolveFailure
      (GoError.other 1) rfl rfl, by decide, by decide⟩

/-- The locked section keeps a lazyConn whose dial is in progress: nothing changes. -/
theorem checkAndReplace_dialing (w : World) (i : Nat) (lc : lazyConn)
    (hu : w.u.lc = some i) (hlc : w.heap[i]? = some lc) (hd : lc.dialFinished = false) :
    checkAndReplace w = some w := by
  simp [checkAndReplace, hu, hlc, hd]

/-- The select on a lazyConn whose dial is in progress leaves the world as it is. -/
theorem waitDial_dialing (w : World) (i : Nat) (lc : lazyConn) (env : StreamEnv)
    (hlc : w.heap[i]? = some lc) (hd : lc.dialFinished = false) :
    waitDial w i env = Run.blocked w ∨ ∃ e, waitDial w i env = Run.done (none, none, some e) w := by
  cases hc : env.ctxErr with
  | none => left; simp [waitDial, hlc, hd, hc]
  | some e => right; exact ⟨e, by simp [waitDial, hlc, hd, hc]⟩

/-- Once the Upstream points to a dialing lazyConn, an interleaving of locked sections
and selects of calls that all took that lazyConn changes nothing, and every further
locked section takes the same lazyConn. -/
theorem runCalls_dialing (steps : List CallStep) (w : World) (i : Nat) (lc : lazyConn)
    (got : List Nat) (hu : w.u.lc = some i) (hlc : w.heap[i]? = some lc)
    (hd : lc.dialFinished = false) (hgot : ∀ j ∈ got, j = i) :
    runCalls steps w got = some (w, got ++ List.replicate (lockedCount steps) i) := by
  induction steps generalizing got with
  | nil => simp [runCalls, lockedCount]
  | cons s rest ih =>
    cases s with
    | locked =>
      have hgot1 : ∀ j ∈ got ++ [i], j = i := by
        intro j hj
        rcases List.mem_append.mp hj with h | h
        · exact hgot j h
        · simpa using h
      simp only [runCalls, checkAndReplace_dialing w i lc hu hlc hd, hu, ih _ hgot1]
      simp [lockedCount, List.replicate_succ]
    | wait k env =>
      have hcount : lockedCount (CallStep.wait k env :: rest) = lockedCount rest := by
        simp [lockedCount]
      rw [hcount]
      cases hk : got[k]? with
      | none => simp only [runCalls, hk]; exact ih got hgot
      | some j =>
        have hj : j = i := hgot j (List.getElem?_mem hk)
        subst hj
        rcases waitDial_dialing w j lc env hlc hd with h | ⟨e, h⟩
        · simp only [runCalls, hk, h]; exact ih got hgot
        · simp only [runCalls, hk, h]; exact ih got hgot

/-- C2.  On an Upstream without a lazyConn, every interleaving of N newStream calls
(N at least 1; locked sections atomic, selects anywhere after their call took its
lazyConn, no dial completing) starts exactly one dial, and all N calls take the same
lazyConn, the one then stored in the Upstream. -/
theorem newStream_concurrent_calls_dial_once (steps : List CallStep) (w : World)
    (hnil : w.u.lc = none) (hN : 1 ≤ lockedCount steps) :
    ∃ w1, runCalls steps w [] =
        some (w1, List.replicate (lockedCount steps) w.heap.length) ∧
      dialCount w1 = dialCount w + 1 ∧ w1.u.lc = some w.heap.length := by
  induction steps with
  | nil => simp [lockedCount] at hN
  | cons s rest ih =>
    cases s with
    | locked =>
      have hstep : checkAndReplace w = some (redial w) := by
        simp [checkAndReplace, hnil]
      have hrun := runCalls_dialing rest (redial w) w.heap.length newLazyConn
        [w.heap.length] rfl (by simp [redial, asyncDialConn]) rfl (by simp)
      refine ⟨redial w, ?_, ?_, rfl⟩
      · have hlc : (redial w).u.lc = some w.heap.length := rfl
        simp only [runCalls, hstep, hlc, List.nil_append, hrun]
        simp [lockedCount, List.replicate_succ]
      · simp [dialCount, redial, asyncDialConn]
    | wait k env =>
      have hcount : lockedCount (CallStep.wait k env :: rest) = lockedCount rest := by
        simp [lockedCount]
      rw [hcount] at hN ⊢
      obtain ⟨w1, h1, h2, h3⟩ := ih hN
      exact ⟨w1, by simpa [runCalls] using h1, h2, h3⟩

/-- C2 on three calls interleaved with two selects, from a fresh Upstream. -/
theorem newStream_concurrent_calls_dial_once_witness :
    freshWorld.u.lc = none ∧
    1 ≤ lockedCount [CallStep.locked, CallStep.wait 0 cancelledCaller, CallStep.locked,
      CallStep.wait 1 patientCaller, CallStep.locked] ∧
    ∃ w1, runCalls [CallStep.locked, CallStep.wait 0 cancelledCaller, CallStep.locked,
          CallStep.wait 1 patientCaller, CallStep.locked] freshWorld [] =
        some (w1, List.replicate (lockedCount [CallStep.locked,
          CallStep.wait 0 cancelledCaller, CallStep.locked,
          CallStep.wait 1 patientCaller, CallStep.locked]) freshWorld.heap.length) ∧
      dialCount w1 = dialCount freshWorld + 1 ∧ w1.u.lc = some freshWorld.heap.length :=
  ⟨rfl, by decide,
    newStream_concurrent_calls_dial_once _ freshWorld rfl (by decide)⟩

/-- C3.  Whenever ExchangeContext returns a response message, the Id of that message
is the Id of the query, whatever Id the message read from the stream carried. -/
theorem ExchangeContext_response_id (pack : Msg → Except GoError (List Nat)) (w : World)
    (q : Msg) (env : ExchangeEnv) (m : Msg) (e : Option GoError) (w1 : World)
    (h : ExchangeContext pack w q env = Run.done (some m, e) w1) : m.Id = q.Id := by
  unfold ExchangeContext at h
  cases hp : pack q with
  | error e0 => simp [hp] at h
  | ok buf =>
    cases hz : zeroID buf with
    | none => simp [hp, hz] at h
    | some payload =>
      cases hn : newStream w env.stream with
      | fault => simp [hp, hz, hn] at h
      | blocked w2 => simp [hp, hz, hn] at h
      | done r w2 =>
        obtain ⟨s, i, er⟩ := r
        cases er with
        | some e1 => simp [hp, hz, hn] at h
        | none =>
          cases s with
          | none => simp [hp, hz, hn] at h
          | some s =>
            cases i with
            | none => simp [hp, hz, hn] at h
            | some i =>
              cases hg : exchangeGoroutine w2 s i payload env with
              | none => simp [hp, hz, hn, hg] at h
              | some g =>
                obtain ⟨w3, resp, err⟩ := g
                cases resp with
                | none =>
                  cases hc : env.ctxCause <;> simp [hp, hz, hn, hg, hc] at h
                  split at h <;> simp at h
                | some m0 =>
                  cases hc : env.ctxCause with
                  | none =>
                    simp [hp, hz, hn, hg, hc] at h
                    rw [← h.1.1]
                  | some cause =>
                    simp [hp, hz, hn, hg, hc] at h
                    split at h
                    · simp at h
                    · simp at h
                      rw [← h.1.1]

/-- C3 on the sample exchange: the message on the stream carries Id 0, the response
returned carries the Id of the query. -/
theorem ExchangeContext_response_id_witness :
    ExchangeContext samplePack connectedWorld sampleQuery goodExchange =
      Run.done (some { Id := 48879, rest := [129, 128] }, none) afterGoodExchange ∧
    (Msg.mk 48879 [129, 128]).Id = sampleQuery.Id :=
  ⟨rfl, ExchangeContext_response_id samplePack connectedWorld sampleQuery goodExchange
    _ none afterGoodExchange rfl⟩

theorem Grows.refl (w : World) : Grows w w := ⟨[], rfl, by simp⟩

theorem Grows.trans {w w1 w2 : World} (h1 : Grows w w1) (h2 : Grows w1 w2) : Grows w w2 := by
  obtain ⟨a, ha, hA⟩ := h1
  obtain ⟨b, hb, hB⟩ := h2
  refine ⟨b ++ a, by rw [hb, ha, List.append_assoc], ?_⟩
  intro c hc
  rcases List.mem_append.mp hc with h | h
  · exact hB c h
  · exact hA c h

theorem Grows.writes {w w1 : World} (h : Grows w w1) : writes w1 = writes w := by
  obtain ⟨a, ha, hA⟩ := h
  unfold Doq.writes
  rw [ha, List.filterMap_append]
  have : List.filterMap
      (fun c => match c with | Call.write s p => some (s, p) | _ => none) a = [] := by
    rw [List.filterMap_eq_nil_iff]
    intro c hc
    have := hA c hc
    cases c <;> simp_all [Call.lifecycle]
  rw [this, List.nil_append]

theorem Grows.releaseCount {w w1 : World} (h : Grows w w1) (payload : List Nat) :
    releaseCount w1 payload = releaseCount w payload := by
  obtain ⟨a, ha, hA⟩ := h
  unfold Doq.releaseCount
  rw [ha, List.count_append]
  have : List.count (Call.releaseBuf payload) a = 0 := by
    rw [List.count_eq_zero]
    intro hc
    have := hA _ hc
    simp [Call.lifecycle] at this
  omega

theorem CloseWithError_grows (w : World) (conn : Nat) : Grows w (CloseWithError w conn) :=
  ⟨[Call.closeWithError conn], rfl, by simp [Call.lifecycle]⟩

theorem lazyConnClose_grows (w w1 : World) (i : Nat) (h : lazyConnClose w i = some w1) :
    Grows w w1 := by
  unfold lazyConnClose at h
  cases hlc : w.heap[i]? with
  | none => simp [hlc] at h
  | some lc =>
    obtain ⟨cl, df, c, err, ms⟩ := lc
    cases cl
    · cases df
      · simp [hlc, closeSignal] at h
        exact ⟨[Call.closeDialFinished i, Call.cancelDial i, Call.lazyConnClose i],
          by rw [← h]; rfl, by simp [Call.lifecycle]⟩
      · cases c with
        | none =>
          simp [hlc] at h
          exact ⟨[Call.lazyConnClose i], by rw [← h]; rfl, by simp [Call.lifecycle]⟩
        | some conn =>
          simp [hlc] at h
          exact ⟨[Call.closeWithError conn, Call.lazyConnClose i], by rw [← h]; rfl,
            by simp [Call.lifecycle]⟩
    · simp [hlc] at h
      exact ⟨[Call.lazyConnClose i], by rw [← h]; rfl, by simp [Call.lifecycle]⟩

theorem queryFailedAndCloseIfConnLost_grows (w w1 : World) (i : Nat) (t now : Time)
    (h : queryFailedAndCloseIfConnLost w i t now = some w1) : Grows w w1 := by
  unfold queryFailedAndCloseIfConnLost at h
  cases hlc : w.heap[i]? with
  | none => simp [hlc] at h
  | some lc =>
    simp only [hlc] at h
    split at h
    · exact lazyConnClose_grows w w1 i h
    · cases h; exact Grows.refl w

theorem redial_grows (w : World) : Grows w (redial w) :=
  ⟨[Call.asyncDialConn w.heap.length], rfl, by simp [Call.lifecycle]⟩

/-- The locked section either redials or leaves the world as it is, the pointer valid. -/
theorem checkAndReplace_cases (w w1 : World) (h : checkAndReplace w = some w1) :
    w1 = redial w ∨ (w1 = w ∧ ∃ i lc, w.u.lc = some i ∧ w.heap[i]? = some lc) := by
  unfold checkAndReplace at h
  cases hu : w.u.lc with
  | none => simp only [hu] at h; cases h; exact Or.inl rfl
  | some i =>
    simp only [hu] at h
    cases hlc : w.heap[i]? with
    | none => simp [hlc] at h
    | some lc =>
      simp only [hlc] at h
      cases hd : lc.dialFinished with
      | false =>
        simp [hd] at h
        exact Or.inr ⟨h.symm, i, lc, rfl, hlc⟩
      | true =>
        cases he : lc.err with
        | some e => simp [hd, he] at h; exact Or.inl h.symm
        | none =>
          cases hc : lc.c with
          | none => simp [hd, he, hc] at h
          | some conn =>
            cases hx : connContextErr w conn with
            | some e => simp [hd, he, hc, hx] at h; exact Or.inl h.symm
            | none =>
              simp [hd, he, hc, hx] at h
              exact Or.inr ⟨h.symm, i, lc, rfl, hlc⟩

theorem checkAndReplace_grows (w w1 : World) (h : checkAndReplace w = some w1) :
    Grows w w1 := by
  rcases checkAndReplace_cases w w1 h with h1 | ⟨h1, _⟩
  · rw [h1]; exact redial_grows w
  · rw [h1]; exact Grows.refl w

/-- The stored pointer is valid after the locked section. -/
theorem checkAndReplace_pointer (w w1 : World) (h : checkAndReplace w = some w1) :
    ∃ i lc, w1.u.lc = some i ∧ w1.heap[i]? = some lc := by
  rcases checkAndReplace_cases w w1 h with h1 | ⟨h1, h2⟩
  · rw [h1]; exact ⟨w.heap.length, newLazyConn, rfl, by simp [redial, asyncDialConn]⟩
  · rw [h1]; exact h2

/-- What the select of newStream leaves: lifecycle calls only, and a stream comes with
the pointer of the lazyConn waited on, in an unchanged world. -/
theorem waitDial_done (w w1 : World) (i : Nat) (env : StreamEnv) (r : StreamRet)
    (h : waitDial w i env = Run.done r w1) :
    Grows w w1 ∧ (∀ s, r.1 = some s → r.2.1 = some i ∧ r.2.2 = none ∧ w1 = w) ∧
      (r.1 = none → r.2.1 = none) := by
  unfold waitDial at h
  cases hlc : w.heap[i]? with
  | none => simp [hlc] at h
  | some lc =>
    simp only [hlc] at h
    have hfin : ∀ (x : Run StreamRet),
        x = (match lc.c with
          | none => Run.done (none, none, lc.err) w
          | some _ =>
            match env.openStream with
            | Except.error e =>
              match queryFailedAndCloseIfConnLost w i env.tArg env.now with
              | none => Run.fault
              | some w1 => Run.done (none, none, some e) w1
            | Except.ok s => Run.done (some s, some i, none) w) →
        x = Run.done r w1 →
        Grows w w1 ∧ (∀ s, r.1 = some s → r.2.1 = some i ∧ r.2.2 = none ∧ w1 = w) ∧
          (r.1 = none → r.2.1 = none) := by
      intro x hx hx1
      rw [hx] at hx1
      cases hc : lc.c with
      | none =>
        simp only [hc] at hx1
        cases hx1
        exact ⟨Grows.refl w, by simp, by simp⟩
      | some conn =>
        simp only [hc] at hx1
        cases ho : env.openStream with
        | error e =>
          simp only [ho] at hx1
          cases hq : queryFailedAndCloseIfConnLost w i env.tArg env.now with
          | none => simp [hq] at hx1
          | some w2 =>
            simp only [hq] at hx1
            cases hx1
            exact ⟨queryFailedAndCloseIfConnLost_grows w w1 i _ _ hq, by simp, by simp⟩
        | ok s =>
          simp only [ho] at hx1
          cases hx1
          exact ⟨Grows.refl w, by simp, by simp⟩
    cases hd : lc.dialFinished <;> cases hce : env.ctxErr <;> simp only [hd, hce] at h
    · cases h
    · cases h; exact ⟨Grows.refl w, by simp, by simp⟩
    · exact hfin _ rfl h
    · split at h
      · exact hfin _ rfl h
      · cases h; exact ⟨Grows.refl w, by simp, by simp⟩

theorem waitDial_blocked (w w1 : World) (i : Nat) (env : StreamEnv)
    (h : waitDial w i env = Run.blocked w1) : w1 = w := by
  unfold waitDial at h
  cases hlc : w.heap[i]? with
  | none => simp [hlc] at h
  | some lc =>
    simp only [hlc] at h
    cases hd : lc.dialFinished <;> cases hce : env.ctxErr <;> simp only [hd, hce] at h
    · cases h; rfl
    · cases h
    all_goals
      repeat (first | cases h | split at h)

/-- A returning newStream call logs lifecycle calls only; a stream comes without an
error and with a valid lazyConn pointer. -/
theorem newStream_done (w w1 : World) (env : StreamEnv) (r : StreamRet)
    (h : newStream w env = Run.done r w1) :
    Grows w w1 ∧ (r.1 = none → r.2.1 = none) ∧
      (∀ s, r.1 = some s → r.2.2 = none ∧ ∃ i lc, r.2.1 = some i ∧ w1.heap[i]? = some lc) := by
  unfold newStream at h
  cases hc : checkAndReplace w with
  | none => simp [hc] at h
  | some w2 =>
    simp only [hc] at h
    obtain ⟨i, lc, hi, hlc⟩ := checkAndReplace_pointer w w2 hc
    simp only [hi] at h
    obtain ⟨hg, hs, hn⟩ := waitDial_done w2 w1 i env r h
    refine ⟨(checkAndReplace_grows w w2 hc).trans hg, hn, ?_⟩
    intro s hs1
    obtain ⟨h1, h2, h3⟩ := hs s hs1
    exact ⟨h2, i, lc, h1, by rw [h3]; exact hlc⟩

theorem newStream_blocked (w w1 : World) (env : StreamEnv)
    (h : newStream w env = Run.blocked w1) : Grows w w1 := by
  unfold newStream at h
  cases hc : checkAndReplace w with
  | none => simp [hc] at h
  | some w2 =>
    simp only [hc] at h
    obtain ⟨i, lc, hi, hlc⟩ := checkAndReplace_pointer w w2 hc
    simp only [hi] at h
    rw [waitDial_blocked w2 w1 i env h]
    exact checkAndReplace_grows w w2 hc

/-- The method lazyConn.close returns on every valid pointer. -/
theorem lazyConnClose_total (w : World) (i : Nat) (lc : lazyConn)
    (hlc : w.heap[i]? = some lc) : ∃ w1, lazyConnClose w i = some w1 := by
  obtain ⟨cl, df, c, err, ms⟩ := lc
  cases cl <;> cases df <;> cases c <;> simp [lazyConnClose, hlc, closeSignal]

theorem queryFailedAndCloseIfConnLost_total (w : World) (i : Nat) (lc : lazyConn)
    (t now : Time) (hlc : w.heap[i]? = some lc) :
    ∃ w1, queryFailedAndCloseIfConnLost w i t now = some w1 := by
  unfold queryFailedAndCloseIfConnLost
  simp only [hlc]
  split
  · exact lazyConnClose_total w i lc hlc
  · exact ⟨w, rfl⟩

/-- The method exchange touches the log only: it hands the payload to Write once. -/
theorem exchange_spec (w : World) (s : Nat) (payload : List Nat) (env : ExchangeEnv) :
    (exchange w s payload env).1.heap = w.heap ∧
    writes (exchange w s payload env).1 = (s, payload) :: writes w ∧
    releaseCount (exchange w s payload env).1 payload = releaseCount w payload := by
  unfold exchange
  cases env.writeErr <;> cases env.readErr <;> simp [writes, releaseCount]

/-- The exchange goroutine runs to its end on a valid lazyConn pointer. -/
theorem exchangeGoroutine_total (w : World) (s i : Nat) (lc : lazyConn)
    (payload : List Nat) (env : ExchangeEnv) (hlc : w.heap[i]? = some lc) :
    ∃ g, exchangeGoroutine w s i payload env = some g := by
  have hheap := (exchange_spec w s payload env).1
  have hlc1 : (exchange w s payload env).1.heap[i]? = some lc := by rw [hheap]; exact hlc
  unfold exchangeGoroutine
  cases he : (exchange w s payload env).2.2 with
  | none => simp [he, hlc1]
  | some e =>
    obtain ⟨w1, h1⟩ := queryFailedAndCloseIfConnLost_total _ i lc env.tArg env.now hlc1
    simp [he, h1]

/-- The exchange goroutine hands the payload to Write once and releases it once. -/
theorem exchangeGoroutine_spec (w w1 : World) (s i : Nat) (payload : List Nat)
    (env : ExchangeEnv) (resp : Option Msg) (err : Option GoError)
    (h : exchangeGoroutine w s i payload env = some (w1, resp, err)) :
    writes w1 = (s, payload) :: writes w ∧
      releaseCount w1 payload = releaseCount w payload + 1 := by
  obtain ⟨_, hw, hr⟩ := exchange_spec w s payload env
  unfold exchangeGoroutine at h
  simp only [Option.map_eq_some'] at h
  obtain ⟨w2, hk, heq⟩ := h
  have hkept : writes w2 = writes (exchange w s payload env).1 ∧
      releaseCount w2 payload = releaseCount (exchange w s payload env).1 payload := by
    cases he : (exchange w s payload env).2.2 with
    | some e =>
      simp only [he] at hk
      have hg := queryFailedAndCloseIfConnLost_grows _ _ _ _ _ hk
      exact ⟨hg.writes, hg.releaseCount payload⟩
    | none =>
      simp only [he] at hk
      cases hl : (exchange w s payload env).1.heap[i]? with
      | none => simp [hl] at hk
      | some lc =>
        simp only [hl, Option.some.injEq] at hk
        subst hk
        exact ⟨rfl, rfl⟩
  cases heq
  constructor
  · rw [← hw, ← hkept.1]; simp [writes]
  · rw [← hr, ← hkept.2]; simp [releaseCount]

/-- How ExchangeContext ends once the query is framed, by the outcome of newStream. -/
theorem ExchangeContext_after_pack (pack : Msg → Except GoError (List Nat)) (w : World)
    (q : Msg) (env : ExchangeEnv) (buf payload : List Nat)
    (hp : pack q = Except.ok buf) (hz : zeroID buf = some payload) :
    (∀ w1, newStream w env.stream = Run.blocked w1 →
      ExchangeContext pack w q env = Run.blocked w1) ∧
    (∀ s i e w1, newStream w env.stream = Run.done (s, i, some e) w1 →
      ExchangeContext pack w q env = Run.done (none, some e) w1) ∧
    (∀ s i w1, newStream w env.stream = Run.done (some s, some i, none) w1 →
      ∃ r w2 resp err, exchangeGoroutine w1 s i payload env = some (w2, resp, err) ∧
        ExchangeContext pack w q env = Run.done r w2) := by
  refine ⟨?_, ?_, ?_⟩
  · intro w1 h
    simp [ExchangeContext, hp, hz, h]
  · intro s i e w1 h
    simp [ExchangeContext, hp, hz, h]
  · intro s i w1 h
    obtain ⟨_, _, hs⟩ := newStream_done w w1 env.stream _ h
    obtain ⟨_, j, lc, hj, hlc⟩ := hs s rfl
    cases hj
    obtain ⟨⟨w2, resp, err⟩, hg⟩ := exchangeGoroutine_total w1 s i lc payload env hlc
    have hret : ∃ r, ExchangeContext pack w q env = Run.done r w2 := by
      simp only [ExchangeContext, hp, hz, h, hg]
      cases resp <;> cases env.ctxCause <;> cases env.pickCtx <;> exact ⟨_, rfl⟩
    obtain ⟨r, hr⟩ := hret
    exact ⟨r, w2, resp, err, hg, hr⟩

/-- The writes of a returned or blocked ExchangeContext call: none, or the payload once. -/
theorem ExchangeContext_writes (pack : Msg → Except GoError (List Nat)) (w : World)
    (q : Msg) (env : ExchangeEnv) (buf payload : List Nat)
    (hp : pack q = Except.ok buf) (hz : zeroID buf = some payload) :
    (∀ r w2, ExchangeContext pack w q env = Run.done r w2 →
      writes w2 = writes w ∨ ∃ s, writes w2 = (s, payload) :: writes w) ∧
    (∀ w2, ExchangeContext pack w q env = Run.blocked w2 → writes w2 = writes w) := by
  obtain ⟨hb, he, hs⟩ := ExchangeContext_after_pack pack w q env buf payload hp hz
  cases hn : newStream w env.stream with
  | fault =>
    constructor <;> intros <;> simp_all [ExchangeContext]
  | blocked w1 =>
    have h1 := hb w1 hn
    constructor
    · intro r w2 h; rw [h1] at h; cases h
    · intro w2 h
      rw [h1] at h
      cases h
      exact (newStream_blocked w w1 env.stream hn).writes
  | done r1 w1 =>
    obtain ⟨s, i, er⟩ := r1
    obtain ⟨hg, hnone, hsome⟩ := newStream_done w w1 env.stream _ hn
    cases er with
    | some e =>
      have h1 := he s i e w1 hn
      constructor
      · intro r w2 h
        rw [h1] at h
        cases h
        exact Or.inl hg.writes
      · intro w2 h; rw [h1] at h; cases h
    | none =>
      cases s with
      | none =>
        constructor <;> intros <;> simp_all [ExchangeContext]
      | some s =>
        obtain ⟨_, j, lc, hj, _⟩ := hsome s rfl
        cases hj
        obtain ⟨r2, w3, resp, err, hgo, h1⟩ := hs s j w1 hn
        have hw := (exchangeGoroutine_spec w1 w3 s j payload env resp err hgo).1
        constructor
        · intro r w2 h
          rw [h1] at h
          cases h
          exact Or.inr ⟨s, by rw [hw, hg.writes]⟩
        · intro w2 h; rw [h1] at h; cases h

/-- C5.  When the query packs (into a buffer long enough to hold the two length octets
and the two ID octets), the byte sequence ExchangeContext hands to Write is the framing
of PackTCPBuffer with the octets at offsets 2 and 3 set to zero: same length, every
other octet unchanged.  It is handed over once whenever newStream yields a stream, and
no other byte sequence is ever written by the call. -/
theorem ExchangeContext_writes_framing_with_zero_id
    (pack : Msg → Except GoError (List Nat)) (w : World) (q : Msg) (env : ExchangeEnv)
    (buf : List Nat) (hp : pack q = Except.ok buf) (hlen : 3 < buf.length) :
    ∃ payload : List Nat,
      payload.length = buf.length ∧ payload[2]? = some 0 ∧ payload[3]? = some 0 ∧
      (∀ j, j ≠ 2 → j ≠ 3 → payload[j]? = buf[j]?) ∧
      (∀ s i w1, newStream w env.stream = Run.done (some s, some i, none) w1 →
        ∃ r w2, ExchangeContext pack w q env = Run.done r w2 ∧
          writes w2 = (s, payload) :: writes w) ∧
      (∀ r w2, ExchangeContext pack w q env = Run.done r w2 →
        writes w2 = writes w ∨ ∃ s, writes w2 = (s, payload) :: writes w) ∧
      (∀ w2, ExchangeContext pack w q env = Run.blocked w2 → writes w2 = writes w) := by
  have hz : zeroID buf = some ((buf.set 2 0).set 3 0) := by simp [zeroID, hlen]
  obtain ⟨h1, h2⟩ := ExchangeContext_writes pack w q env buf _ hp hz
  refine ⟨(buf.set 2 0).set 3 0, by simp, ?_, ?_, ?_, ?_, h1, h2⟩
  · rw [List.getElem?_set_ne (by decide), List.getElem?_set_self (by omega)]
  · rw [List.getElem?_set_self (by simp; omega)]
  · intro j hj2 hj3
    rw [List.getElem?_set_ne (Ne.symm hj3), List.getElem?_set_ne (Ne.symm hj2)]
  · intro s i w1 hn
    obtain ⟨hg, _, _⟩ := newStream_done w w1 env.stream _ hn
    obtain ⟨r, w2, resp, err, hgo, hr⟩ :=
      (ExchangeContext_after_pack pack w q env buf _ hp hz).2.2 s i w1 hn
    exact ⟨r, w2, hr, by
      rw [(exchangeGoroutine_spec w1 w2 s i _ env resp err hgo).1, hg.writes]⟩

/-- C5 on the sample exchange: the framing carries the ID octets 0xBE 0xEF, the bytes
written carry zeros there and are otherwise the same. -/
theorem ExchangeContext_writes_framing_with_zero_id_witness :
    samplePack sampleQuery = Except.ok [0, 12, 190, 239, 1, 0, 0, 1, 0, 0, 0, 0, 0, 0] ∧
    writes afterGoodExchange = [(3, [0, 12, 0, 0, 1, 0, 0, 1, 0, 0, 0, 0, 0, 0])] ∧
    ∃ payload : List Nat,
      payload.length = [0, 12, 190, 239, 1, 0, 0, 1, 0, 0, 0, 0, 0, 0].length ∧
      payload[2]? = some 0 ∧ payload[3]? = some 0 ∧
      (∀ j, j ≠ 2 → j ≠ 3 →
        payload[j]? = [0, 12, 190, 239, 1, 0, 0, 1, 0, 0, 0, 0, 0, 0][j]?) ∧
      (∀ s i w1, newStream connectedWorld goodExchange.stream =
          Run.done (some s, some i, none) w1 →
        ∃ r w2, ExchangeContext samplePack connectedWorld sampleQuery goodExchange =
            Run.done r w2 ∧
          writes w2 = (s, payload) :: writes connectedWorld) ∧
      (∀ r w2, ExchangeContext samplePack connectedWorld sampleQuery goodExchange =
          Run.done r w2 →
        writes w2 = writes connectedWorld ∨
          ∃ s, writes w2 = (s, payload) :: writes connectedWorld) ∧
      (∀ w2, ExchangeContext samplePack connectedWorld sampleQuery goodExchange =
          Run.blocked w2 → writes w2 = writes connectedWorld) :=
  ⟨rfl, by decide,
    ExchangeContext_writes_framing_with_zero_id samplePack connectedWorld sampleQuery
      goodExchange _ rfl (by decide)⟩

/-- C4 refuted on the code: Upstream.Close on an Upstream whose lazyConn is dialing
leaves that lazyConn with closed false, no error recorded and dialFinished open, and
calls neither lazyConn.close nor cancelDial; on a connected lazyConn it leaves closed
false and does not call CloseWithError. -/
theorem UpstreamClose_leaves_lazyConn_open :
    dialingWorld.u.lc = some 0 ∧
    ((UpstreamClose dialingWorld quietTransportClose).1.heap[0]?).map
        (fun lc => (lc.closed, lc.dialFinished, lc.err)) = some (false, false, none) ∧
    closeCallCount (UpstreamClose dialingWorld quietTransportClose).1 0 = 0 ∧
    Call.cancelDial 0 ∉ (UpstreamClose dialingWorld quietTransportClose).1.log ∧
    connectedWorld.u.lc = some 0 ∧
    ((UpstreamClose connectedWorld quietTransportClose).1.heap[0]?).map
        (fun lc => (lc.closed, lc.c)) = some (false, some 7) ∧
    Call.closeWithError 7 ∉ (UpstreamClose connectedWorld quietTransportClose).1.log := by
  decide

/-- C4 as amended.  Upstream.Close calls Close on the quic transport once and returns
its error; it does not call lazyConn.close: the pointer in the Upstream, every lazyConn
(closed flag, connection, error, completion signal) and the counts of lazyConn.close
and cancelDial calls stay as they were. -/
theorem UpstreamClose_closes_transport_only (w : World)
    (tClose : List (Nat × GoError) → List (Nat × GoError) × Option GoError) :
    (UpstreamClose w tClose).2 = (tClose w.connErr).2 ∧
    (UpstreamClose w tClose).1.log = Call.transportClose :: w.log ∧
    (UpstreamClose w tClose).1.u = w.u ∧
    (UpstreamClose w tClose).1.heap = w.heap ∧
    (∀ i, closeCallCount (UpstreamClose w tClose).1 i = closeCallCount w i) ∧
    (∀ i, (UpstreamClose w tClose).1.log.count (Call.cancelDial i) =
      w.log.count (Call.cancelDial i)) ∧
    (∀ i, signalCloseCount (UpstreamClose w tClose).1 i = signalCloseCount w i) := by
  refine ⟨rfl, rfl, rfl, rfl, ?_, ?_, ?_⟩ <;> intro i <;>
    simp [UpstreamClose, closeCallCount, signalCloseCount]

/-- C6.  A newStream call made while the lazyConn of the Upstream is dialing, by a
caller whose context is already cancelled, returns no stream and the error of the
context, and leaves the whole world as it was: the same pointer in the Upstream, the
same lazyConn fields, no call logged (so no cancelDial). -/
theorem newStream_cancelled_while_dialing (w : World) (i : Nat) (lc : lazyConn)
    (env : StreamEnv) (e : GoError) (hu : w.u.lc = some i) (hlc : w.heap[i]? = some lc)
    (hd : lc.dialFinished = false) (hc : env.ctxErr = some e) :
    newStream w env = Run.done (none, none, some e) w := by
  simp [newStream, checkAndReplace_dialing w i lc hu hlc hd, hu, waitDial, hlc, hd, hc]

/-- C6 on the dialing sample world and a cancelled caller. -/
theorem newStream_cancelled_while_dialing_witness :
    dialingWorld.u.lc = some 0 ∧ dialingWorld.heap[0]? = some newLazyConn ∧
    newLazyConn.dialFinished = false ∧ cancelledCaller.ctxErr = some GoError.canceled ∧
    newStream dialingWorld cancelledCaller =
      Run.done (none, none, some GoError.canceled) dialingWorld :=
  ⟨rfl, rfl, rfl, rfl,
    newStream_cancelled_while_dialing dialingWorld 0 newLazyConn cancelledCaller
      GoError.canceled rfl rfl rfl rfl⟩

/-- C8, the code at the failing input.  When the query is framed and newStream returns
an error, ExchangeContext returns that error in the world newStream left, in which the
payload buffer has been released as often as before the call: not at all by this call. -/
theorem ExchangeContext_newStream_error_keeps_buffer
    (pack : Msg → Except GoError (List Nat)) (w : World) (q : Msg) (env : ExchangeEnv)
    (buf payload : List Nat) (s i : Option Nat) (e : GoError) (w1 : World)
    (hp : pack q = Except.ok buf) (hz : zeroID buf = some payload)
    (hn : newStream w env.stream = Run.done (s, i, some e) w1) :
    ExchangeContext pack w q env = Run.done (none, some e) w1 ∧
      releaseCount w1 payload = releaseCount w payload :=
  ⟨(ExchangeContext_after_pack pack w q env buf payload hp hz).2.1 s i e w1 hn,
    (newStream_done w w1 env.stream _ hn).1.releaseCount payload⟩

/-- C8, the failing run: the sample query is framed, the caller is cancelled while the
dial is in progress, ExchangeContext returns the cancellation and the framed buffer was
never released. -/
theorem ExchangeContext_newStream_error_keeps_buffer_run :
    samplePack sampleQuery = Except.ok [0, 12, 190, 239, 1, 0, 0, 1, 0, 0, 0, 0, 0, 0] ∧
    zeroID [0, 12, 190, 239, 1, 0, 0, 1, 0, 0, 0, 0, 0, 0] =
      some [0, 12, 0, 0, 1, 0, 0, 1, 0, 0, 0, 0, 0, 0] ∧
    releaseCount dialingWorld [0, 12, 0, 0, 1, 0, 0, 1, 0, 0, 0, 0, 0, 0] = 0 ∧
    (ExchangeContext samplePack dialingWorld sampleQuery
        { goodExchange with stream := cancelledCaller } =
      Run.done (none, some GoError.canceled) dialingWorld ∧
    releaseCount dialingWorld [0, 12, 0, 0, 1, 0, 0, 1, 0, 0, 0, 0, 0, 0] =
      releaseCount dialingWorld [0, 12, 0, 0, 1, 0, 0, 1, 0, 0, 0, 0, 0, 0]) :=
  ⟨rfl, rfl, by decide,
    ExchangeContext_newStream_error_keeps_buffer samplePack dialingWorld sampleQuery
      { goodExchange with stream := cancelledCaller } _ _ none none GoError.canceled
      dialingWorld rfl rfl rfl⟩

/-- C9.  On every Upstream state whose pointer, if any, is to a lazyConn that has a
connection whenever its dial finished without error, the locked section of newStream
returns, and it starts a dial and stores the new lazyConn exactly when the pointer is
nil, or dialFinished of the existing lazyConn is closed and either its error is set or
the context of its connection reports an error; in every other case the world is left
as it was, the pointer included, and no dial is started. -/
theorem checkAndReplace_dials_iff (w : World)
    (hwf : ∀ i, w.u.lc = some i → ∃ lc, w.heap[i]? = some lc ∧
      (lc.dialFinished = true → lc.err = none → lc.c ≠ none)) :
    ∃ w1, checkAndReplace w = some w1 ∧
      (needsDial w = true ↔ dialCount w1 = dialCount w + 1) ∧
      (needsDial w = true ↔ w1.u.lc ≠ w.u.lc) ∧
      (needsDial w = true →
        w1 = redial w ∧ w1.u.lc = some w.heap.length ∧
          w1.heap[w.heap.length]? = some newLazyConn) ∧
      (needsDial w = false → w1 = w) := by
  have hcount : dialCount (redial w) = dialCount w + 1 := by
    simp [dialCount, redial, asyncDialConn]
  have hptr : (redial w).u.lc ≠ w.u.lc := by
    intro heq
    have h1 : w.u.lc = some w.heap.length := heq.symm
    obtain ⟨lc, hlc, _⟩ := hwf _ h1
    rw [List.getElem?_eq_none (Nat.le_refl _)] at hlc
    cases hlc
  have key : ∀ w1, (needsDial w = true ∧ w1 = redial w) ∨ (needsDial w = false ∧ w1 = w) →
      (needsDial w = true ↔ dialCount w1 = dialCount w + 1) ∧
      (needsDial w = true ↔ w1.u.lc ≠ w.u.lc) ∧
      (needsDial w = true →
        w1 = redial w ∧ w1.u.lc = some w.heap.length ∧
          w1.heap[w.heap.length]? = some newLazyConn) ∧
      (needsDial w = false → w1 = w) := by
    intro w1 h
    rcases h with ⟨hn, rfl⟩ | ⟨hn, rfl⟩
    · refine ⟨⟨fun _ => hcount, fun _ => hn⟩, ⟨fun _ => hptr, fun _ => hn⟩,
        fun _ => ⟨rfl, rfl, by simp [redial, asyncDialConn]⟩, fun h => ?_⟩
      rw [hn] at h; cases h
    · refine ⟨⟨fun h => ?_, fun h => ?_⟩, ⟨fun h => ?_, fun h => ?_⟩, fun h => ?_,
        fun _ => rfl⟩
      · rw [hn] at h; cases h
      · omega
      · rw [hn] at h; cases h
      · exact absurd rfl h
      · rw [hn] at h; cases h
  obtain ⟨p, hu⟩ : ∃ p, w.u.lc = p := ⟨_, rfl⟩
  cases p with
  | none =>
    exact ⟨redial w, by simp [checkAndReplace, hu],
      key _ (Or.inl ⟨by simp [needsDial, hu], rfl⟩)⟩
  | some i =>
    obtain ⟨lc, hlc, hcon⟩ := hwf i hu
    cases hd : lc.dialFinished with
    | false =>
      exact ⟨w, by simp [checkAndReplace, hu, hlc, hd],
        key _ (Or.inr ⟨by simp [needsDial, hu, hlc, hd], rfl⟩)⟩
    | true =>
      cases he : lc.err with
      | some e =>
        exact ⟨redial w, by simp [checkAndReplace, hu, hlc, hd, he],
          key _ (Or.inl ⟨by simp [needsDial, hu, hlc, hd, he], rfl⟩)⟩
      | none =>
        cases hc : lc.c with
        | none => exact absurd hc (hcon hd he)
        | some conn =>
          cases hx : connContextErr w conn with
          | some e =>
            exact ⟨redial w, by simp [checkAndReplace, hu, hlc, hd, he, hc, hx],
              key _ (Or.inl ⟨by simp [needsDial, hu, hlc, hd, he, hc, hx], rfl⟩)⟩
          | none =>
            exact ⟨w, by simp [checkAndReplace, hu, hlc, hd, he, hc, hx],
              key _ (Or.inr ⟨by simp [needsDial, hu, hlc, hd, he, hc, hx], rfl⟩)⟩

/-- C9 on the connected sample world: the hypothesis holds there, and the healthy
connection is kept. -/
theorem checkAndReplace_dials_iff_witness :
    (∀ i, connectedWorld.u.lc = some i → ∃ lc, connectedWorld.heap[i]? = some lc ∧
      (lc.dialFinished = true → lc.err = none → lc.c ≠ none)) ∧
    ∃ w1, checkAndReplace connectedWorld = some w1 ∧
      (needsDial connectedWorld = true ↔ dialCount w1 = dialCount connectedWorld + 1) ∧
      (needsDial connectedWorld = true ↔ w1.u.lc ≠ connectedWorld.u.lc) ∧
      (needsDial connectedWorld = true →
        w1 = redial connectedWorld ∧ w1.u.lc = some connectedWorld.heap.length ∧
          w1.heap[connectedWorld.heap.length]? = some newLazyConn) ∧
      (needsDial connectedWorld = false → w1 = connectedWorld) :=
  have hwf : ∀ i, connectedWorld.u.lc = some i → ∃ lc, connectedWorld.heap[i]? = some lc ∧
      (lc.dialFinished = true → lc.err = none → lc.c ≠ none) := by
    intro i hi
    cases hi
    exact ⟨_, rfl, by decide⟩
  ⟨hwf, checkAndReplace_dials_iff connectedWorld hwf⟩

/-- The comparison in queryFailedAndCloseIfConnLost: saturation of the Duration does
not change on which side of the threshold the gap falls. -/
theorem threshold_lt_timeSub (now : Time) (ms : Int) :
    connectionLostThreshold < timeSub now (timeOfUnixMilli ms) ↔
      5000000000 < now - ms * 1000000 := by
  show (1000000000 : Int) * 5 <
      (if (9223372036854775807 : Int) < now - ms * 1000000 then (9223372036854775807 : Int)
       else if now - ms * 1000000 < (-9223372036854775808 : Int) then
         (-9223372036854775808 : Int)
       else now - ms * 1000000) ↔ (5000000000 : Int) < now - ms * 1000000
  have hnow : ∃ x : Int, now = x := ⟨now, rfl⟩
  obtain ⟨x, hx⟩ := hnow
  rw [hx]
  split_ifs <;> constructor <;> intro h <;> first | omega | (exfalso; linarith)

/-- The method lazyConn.close logs its own call once, besides lifecycle calls on the
connection and the signal. -/
theorem lazyConnClose_count (w w1 : World) (i : Nat) (h : lazyConnClose w i = some w1) :
    closeCallCount w1 i = closeCallCount w i + 1 := by
  unfold lazyConnClose at h
  cases hlc : w.heap[i]? with
  | none => simp [hlc] at h
  | some lc =>
    obtain ⟨cl, df, c, err, ms⟩ := lc
    cases cl <;> cases df <;> cases c <;> simp [hlc, closeSignal, CloseWithError] at h <;>
      rw [← h] <;> simp [closeCallCount]

/-- Past the threshold, queryFailedAndCloseIfConnLost is lazyConn.close. -/
theorem queryFailedAndCloseIfConnLost_lost (w : World) (i : Nat) (lc : lazyConn)
    (t now : Time) (hlc : w.heap[i]? = some lc)
    (hgap : 5000000000 < now - lc.latestRecvMs * 1000000) :
    queryFailedAndCloseIfConnLost w i t now = lazyConnClose w i := by
  simp [queryFailedAndCloseIfConnLost, hlc, latestRespRecvTime,
    (threshold_lt_timeSub now lc.latestRecvMs).2 hgap]

/-- Up to the threshold, queryFailedAndCloseIfConnLost does nothing. -/
theorem queryFailedAndCloseIfConnLost_kept (w : World) (i : Nat) (lc : lazyConn)
    (t now : Time) (hlc : w.heap[i]? = some lc)
    (hgap : ¬ 5000000000 < now - lc.latestRecvMs * 1000000) :
    queryFailedAndCloseIfConnLost w i t now = some w := by
  have hn : ¬ connectionLostThreshold < timeSub now (timeOfUnixMilli lc.latestRecvMs) :=
    fun h => hgap ((threshold_lt_timeSub now lc.latestRecvMs).1 h)
  simp [queryFailedAndCloseIfConnLost, hlc, latestRespRecvTime, hn]

/-- C10.  On every lazyConn and at every clock reading now,
queryFailedAndCloseIfConnLost returns, and it calls lazyConn.close exactly when now minus
the saved receive time (whole milliseconds since the epoch) is strictly more than 5
seconds; when the gap is 5 seconds or less it leaves the world, and so the closed flag,
connection, error and completion signal of the lazyConn, as it was. -/
theorem queryFailedAndCloseIfConnLost_iff (w : World) (i : Nat) (lc : lazyConn)
    (t now : Time) (hlc : w.heap[i]? = some lc) :
    ∃ w1, queryFailedAndCloseIfConnLost w i t now = some w1 ∧
      (closeCallCount w1 i = closeCallCount w i + 1 ↔
        5 * Second < now - lc.latestRecvMs * 1000000) ∧
      (5 * Second < now - lc.latestRecvMs * 1000000 → lazyConnClose w i = some w1) ∧
      (now - lc.latestRecvMs * 1000000 ≤ 5 * Second → w1 = w) := by
  have hS : (5 : Int) * Second = 5000000000 := by simp [Second]
  rw [hS]
  by_cases hgap : 5000000000 < now - lc.latestRecvMs * 1000000
  · obtain ⟨w1, h1⟩ := lazyConnClose_total w i lc hlc
    have hq : queryFailedAndCloseIfConnLost w i t now = some w1 := by
      rw [queryFailedAndCloseIfConnLost_lost w i lc t now hlc hgap, h1]
    exact ⟨w1, hq, ⟨fun _ => hgap, fun _ => lazyConnClose_count w w1 i h1⟩, fun _ => h1,
      fun h => absurd hgap (not_lt.mpr h)⟩
  · have hq := queryFailedAndCloseIfConnLost_kept w i lc t now hlc hgap
    exact ⟨w, hq, ⟨fun h => by omega, fun h => absurd h hgap⟩, fun h => absurd h hgap,
      fun _ => rfl⟩

/-- C10 at the threshold: last receive at 1000 ms, clock at exactly 6 s: the gap is 5 s,
not more, and the connection is kept. -/
theorem queryFailedAndCloseIfConnLost_iff_witness :
    connectedWorld.heap[0]? =
      some { closed := false, dialFinished := true, c := some 7, err := none,
             latestRecvMs := 1000 } ∧
    ∃ w1, queryFailedAndCloseIfConnLost connectedWorld 0 0 6000000000 = some w1 ∧
      (closeCallCount w1 0 = closeCallCount connectedWorld 0 + 1 ↔
        5 * Second < 6000000000 - (1000 : Int) * 1000000) ∧
      (5 * Second < 6000000000 - (1000 : Int) * 1000000 →
        lazyConnClose connectedWorld 0 = some w1) ∧
      (6000000000 - (1000 : Int) * 1000000 ≤ 5 * Second → w1 = connectedWorld) :=
  ⟨rfl, queryFailedAndCloseIfConnLost_iff connectedWorld 0 _ 0 6000000000 rfl⟩

/-- The method lazyConn.close on a lazyConn whose dial published a connection: the
connection is closed through CloseWithError unless the lazyConn was closed before, the
outcome of the dial stays, and no dial is started. -/
theorem lazyConnClose_connected (w : World) (i conn : Nat) (lc : lazyConn)
    (hlc : w.heap[i]? = some lc) (hd : lc.dialFinished = true) (hc : lc.c = some conn)
    (hinv : lc.closed = true → (connContextErr w conn).isSome = true) :
    ∃ w1, lazyConnClose w i = some w1 ∧ w1.u = w.u ∧
      w1.heap.length = w.heap.length ∧
      w1.heap[i]? = some { lc with closed := true } ∧
      (connContextErr w1 conn).isSome = true ∧ dialCount w1 = dialCount w := by
  have hi : i < w.heap.length := by
    rcases Nat.lt_or_ge i w.heap.length with h | h
    · exact h
    · rw [List.getElem?_eq_none h] at hlc; cases hlc
  obtain ⟨cl, df, c, err, ms⟩ := lc
  simp only at hd hc hinv
  subst hd hc
  cases cl with
  | true =>
    refine ⟨{ w with log := Call.lazyConnClose i :: w.log }, by simp [lazyConnClose, hlc],
      rfl, rfl, hlc, hinv rfl, ?_⟩
    simp [dialCount]
  | false =>
    refine ⟨CloseWithError
        { w with
          heap := w.heap.set i
            { closed := true, dialFinished := true, c := some conn, err := err,
              latestRecvMs := ms },
          log := Call.lazyConnClose i :: w.log } conn,
      by simp [lazyConnClose, hlc], rfl, by simp [CloseWithError], ?_, ?_, ?_⟩
    · simp [CloseWithError, hi]
    · simp only [connContextErr, CloseWithError]
      cases hx : List.lookup conn w.connErr with
      | none => simp [List.lookup]
      | some e => simp [hx]
    · simp [dialCount, CloseWithError]

/-- C7.  On an Upstream whose lazyConn was dialed successfully, when more than 5
seconds passed since the saved receive time and an exchange failure runs
queryFailedAndCloseIfConnLost, the next newStream call does not reuse that lazyConn: its
locked section starts one new dial, stores the pointer of a new lazyConn, different
from the old one, and the call waits on the new one. -/
theorem newStream_after_lost_connection_redials (w : World) (i conn : Nat) (lc : lazyConn)
    (t now : Time) (env : StreamEnv)
    (hu : w.u.lc = some i) (hlc : w.heap[i]? = some lc) (hd : lc.dialFinished = true)
    (he : lc.err = none) (hc : lc.c = some conn)
    (hinv : lc.closed = true → (connContextErr w conn).isSome = true)
    (hgap : 5 * Second < now - lc.latestRecvMs * 1000000) :
    ∃ w1 w2, queryFailedAndCloseIfConnLost w i t now = some w1 ∧
      checkAndReplace w1 = some w2 ∧
      dialCount w2 = dialCount w1 + 1 ∧
      w2.u.lc = some w1.heap.length ∧ w1.heap.length ≠ i ∧
      w2.heap[w1.heap.length]? = some newLazyConn ∧
      newStream w1 env = waitDial w2 w1.heap.length env := by
  have hi : i < w.heap.length := by
    rcases Nat.lt_or_ge i w.heap.length with h | h
    · exact h
    · rw [List.getElem?_eq_none h] at hlc; cases hlc
  have hgap1 : 5000000000 < now - lc.latestRecvMs * 1000000 := by
    have hS : (5 : Int) * Second = 5000000000 := by simp [Second]
    rw [hS] at hgap
    exact hgap
  obtain ⟨w1b, h1, hu1, hlen, hlc1, hctx, _⟩ :=
    lazyConnClose_connected w i conn lc hlc hd hc hinv
  have hq : queryFailedAndCloseIfConnLost w i t now = some w1b := by
    rw [queryFailedAndCloseIfConnLost_lost w i lc t now hlc hgap1, h1]
  have hstep : checkAndReplace w1b = some (redial w1b) := by
    obtain ⟨e, hx⟩ := Option.isSome_iff_exists.mp hctx
    simp [checkAndReplace, hu1, hu, hlc1, hd, he, hc, hx]
  refine ⟨w1b, redial w1b, hq, hstep, by simp [dialCount, redial, asyncDialConn], rfl,
    by omega, by simp [redial, asyncDialConn], ?_⟩
  simp only [newStream, hstep]
  rfl

/-- C7 on the connected sample world: last receive at 1 s, the failure handled at 7 s. -/
theorem newStream_after_lost_connection_redials_witness :
    connectedWorld.u.lc = some 0 ∧
    5 * Second < (7000000000 : Int) - (1000 : Int) * 1000000 ∧
    ∃ w1 w2, queryFailedAndCloseIfConnLost connectedWorld 0 7000000000 7000000000 =
        some w1 ∧
      checkAndReplace w1 = some w2 ∧
      dialCount w2 = dialCount w1 + 1 ∧
      w2.u.lc = some w1.heap.length ∧ w1.heap.length ≠ 0 ∧
      w2.heap[w1.heap.length]? = some newLazyConn ∧
      newStream w1 patientCaller = waitDial w2 w1.heap.length patientCaller :=
  ⟨rfl, by decide,
    newStream_after_lost_connection_redials connectedWorld 0 7
      { closed := false, dialFinished := true, c := some 7, err := none,
        latestRecvMs := 1000 }
      7000000000 7000000000 patientCaller rfl rfl rfl rfl rfl (by decide) (by decide)⟩

/-- The method lazyConn.close on a lazyConn whose dial is in progress: it sets closed,
cancels the dial, records net.ErrClosed and closes dialFinished, once. -/
theorem lazyConnClose_dialing (w : World) (i : Nat) (lc : lazyConn)
    (hlc : w.heap[i]? = some lc) (hcl : lc.closed = false) (hd : lc.dialFinished = false) :
    lazyConnClose w i = some
      { w with
        heap := w.heap.set i
          { lc with closed := true, dialFinished := true, err := some GoError.errClosed },
        log := Call.closeDialFinished i :: Call.cancelDial i :: Call.lazyConnClose i ::
          w.log } := by
  obtain ⟨cl, df, c, err, ms⟩ := lc
  simp only at hcl hd
  subst hcl hd
  simp [lazyConnClose, hlc, closeSignal]

/-- The publish step on a closed lazyConn changes no lazyConn and closes no channel: it
only closes the connection the dial obtained, if any. -/
theorem publish_closed (w : World) (i : Nat) (lc : lazyConn) (c : Option Nat)
    (err : Option GoError) (now : Time)
    (hlc : w.heap[i]? = some lc) (hcl : lc.closed = true) :
    publish w i c err now =
      some (match c with
        | some conn => CloseWithError w conn
        | none => w) := by
  cases c <;> simp [publish, hlc, hcl]

theorem getElem?_set_heap (heap : List lazyConn) (i : Nat) (lc lc1 : lazyConn)
    (hlc : heap[i]? = some lc) : (heap.set i lc1)[i]? = some lc1 := by
  have hi : i < heap.length := by
    rcases Nat.lt_or_ge i heap.length with h | h
    · exact h
    · rw [List.getElem?_eq_none h] at hlc; cases hlc
  rw [List.getElem?_set_self hi]

/-- C11.  When close() ran on a lazyConn whose dial was in progress, and the dial
goroutine later completes its handshake and obtains a connection, the goroutine closes
that connection with CloseWithError and does not publish it: the lazyConn keeps a nil
connection, the error net.ErrClosed recorded by close(), and its channel dialFinished,
closed once by close(), is not closed again. -/
theorem dial_completing_after_close_discards_connection (w : World) (i ec conn : Nat)
    (lc : lazyConn) (env : DialEnv)
    (hlc : w.heap[i]? = some lc) (hcl : lc.closed = false) (hd : lc.dialFinished = false)
    (hc : lc.c = none) (hres : env.resolveErr = none) (hec : env.ec = some ec)
    (hhs : env.ctxDone = none) (hnext : env.next = some conn) :
    ∃ w1 w2 lc2, lazyConnClose w i = some w1 ∧ dialGoroutine w1 i env = some w2 ∧
      signalCloseCount w1 i = signalCloseCount w i + 1 ∧
      signalCloseCount w2 i = signalCloseCount w1 i ∧
      w2.heap = w1.heap ∧ w2.heap[i]? = some lc2 ∧
      lc2.closed = true ∧ lc2.dialFinished = true ∧ lc2.c = none ∧
      lc2.err = some GoError.errClosed ∧
      w2.log = Call.cancelDial i :: Call.closeWithError conn :: w1.log ∧
      (connContextErr w2 conn).isSome = true := by
  have h1 := lazyConnClose_dialing w i lc hlc hcl hd
  obtain ⟨w1, hw1⟩ : ∃ w1 : World, w1 =
      { w with
        heap := w.heap.set i
          { lc with closed := true, dialFinished := true, err := some GoError.errClosed },
        log := Call.closeDialFinished i :: Call.cancelDial i :: Call.lazyConnClose i ::
          w.log } := ⟨_, rfl⟩
  rw [← hw1] at h1
  have hlc1 : w1.heap[i]? =
      some { lc with closed := true, dialFinished := true, err := some GoError.errClosed } := by
    rw [hw1]
    exact getElem?_set_heap w.heap i lc _ hlc
  have hg : dialGoroutine w1 i env =
      some { CloseWithError w1 conn with
             log := Call.cancelDial i :: (CloseWithError w1 conn).log } := by
    simp only [dialGoroutine, hres, hec, hhs, hnext]
    rw [publish_closed w1 i _ (some conn) env.dialErr env.now hlc1 rfl]
    rfl
  refine ⟨w1, _, _, h1, hg, ?_, ?_, rfl, hlc1, rfl, rfl, hc, rfl, rfl, ?_⟩
  · rw [hw1]; simp [signalCloseCount]
  · simp [signalCloseCount, CloseWithError]
  · simp only [connContextErr, CloseWithError]
    cases hx : List.lookup conn w1.connErr with
    | none => simp [List.lookup]
    | some e => simp [hx]

/-- C11 on the dialing sample world: close() runs, then the handshake completes with
the connection 7. -/
theorem dial_completing_after_close_discards_connection_witness :
    dialingWorld.heap[0]? = some newLazyConn ∧
    ∃ w1 w2 lc2, lazyConnClose dialingWorld 0 = some w1 ∧
      dialGoroutine w1 0 lateDial = some w2 ∧
      signalCloseCount w1 0 = signalCloseCount dialingWorld 0 + 1 ∧
      signalCloseCount w2 0 = signalCloseCount w1 0 ∧
      w2.heap = w1.heap ∧ w2.heap[0]? = some lc2 ∧
      lc2.closed = true ∧ lc2.dialFinished = true ∧ lc2.c = none ∧
      lc2.err = some GoError.errClosed ∧
      w2.log = Call.cancelDial 0 :: Call.closeWithError 7 :: w1.log ∧
      (connContextErr w2 7).isSome = true :=
  ⟨rfl, dial_completing_after_close_discards_connection dialingWorld 0 7 7 newLazyConn
    lateDial rfl rfl rfl rfl rfl rfl rfl rfl⟩

/-- The method lazyConn.close on a lazyConn whose channel dialFinished is closed: the
channel is not closed again, and the lazyConn ends closed. -/
theorem lazyConnClose_finished (w : World) (i : Nat) (lc : lazyConn)
    (hlc : w.heap[i]? = some lc) (hd : lc.dialFinished = true) :
    ∃ w1 lc1, lazyConnClose w i = some w1 ∧
      signalCloseCount w1 i = signalCloseCount w i ∧
      w1.heap[i]? = some lc1 ∧ lc1.dialFinished = true ∧ lc1.closed = true := by
  have hset : ∀ lc1 : lazyConn, (w.heap.set i lc1)[i]? = some lc1 :=
    fun lc1 => getElem?_set_heap w.heap i lc lc1 hlc
  obtain ⟨cl, df, c, err, ms⟩ := lc
  simp only at hd
  subst hd
  cases cl with
  | true =>
    exact ⟨{ w with log := Call.lazyConnClose i :: w.log }, _,
      by simp [lazyConnClose, hlc], by simp [signalCloseCount], hlc, rfl, rfl⟩
  | false =>
    cases c with
    | none =>
      exact ⟨{ w with
            heap := w.heap.set i
              { closed := true, dialFinished := true, c := none, err := err,
                latestRecvMs := ms },
            log := Call.lazyConnClose i :: w.log }, _,
        by simp [lazyConnClose, hlc], by simp [signalCloseCount], hset _, rfl, rfl⟩
    | some conn =>
      exact ⟨CloseWithError { w with
            heap := w.heap.set i
              { closed := true, dialFinished := true, c := some conn, err := err,
                latestRecvMs := ms },
            log := Call.lazyConnClose i :: w.log } conn, _,
        by simp [lazyConnClose, hlc], by simp [signalCloseCount, CloseWithError],
        hset _, rfl, rfl⟩

/-- Once dialFinished is closed, later close() calls, and a late publish step on the
lazyConn when it is closed, never close the channel again. -/
theorem runOps_finished (ops : List LcOp) (w : World) (i : Nat) (lc : lazyConn)
    (hlc : w.heap[i]? = some lc) (hd : lc.dialFinished = true)
    (hphase : lc.closed = true ∨ publishCount ops = 0) :
    ∃ ws, runOps ops w i = some ws ∧
      (∀ w1 ∈ ws, signalCloseCount w1 i = signalCloseCount w i) ∧
      List.Chain (ClosesWithOneOutcome i) w ws := by
  induction ops generalizing w lc with
  | nil => exact ⟨[], rfl, by simp, List.Chain.nil⟩
  | cons op rest ih =>
    have hstep : ∃ w1 lc1, lcStep w i op = some w1 ∧
        signalCloseCount w1 i = signalCloseCount w i ∧
        w1.heap[i]? = some lc1 ∧ lc1.dialFinished = true ∧
        (lc1.closed = true ∨ publishCount rest = 0) := by
      cases op with
      | close =>
        obtain ⟨w1, lc1, h1, h2, h3, h4, h5⟩ := lazyConnClose_finished w i lc hlc hd
        exact ⟨w1, lc1, h1, h2, h3, h4, Or.inl h5⟩
      | publish c err now =>
        have hcl : lc.closed = true := by
          rcases hphase with h | h
          · exact h
          · simp [publishCount] at h
        have hp := publish_closed w i lc c err now hlc hcl
        cases c with
        | none => exact ⟨w, lc, hp, rfl, hlc, hd, Or.inl hcl⟩
        | some conn =>
          exact ⟨CloseWithError w conn, lc, hp, by simp [signalCloseCount, CloseWithError],
            hlc, hd, Or.inl hcl⟩
    obtain ⟨w1, lc1, h1, h2, h3, h4, h5⟩ := hstep
    obtain ⟨ws, hr, hcount, hchain⟩ := ih w1 lc1 h3 h4 h5
    refine ⟨w1 :: ws, by simp [runOps, h1, hr], ?_, List.Chain.cons ?_ hchain⟩
    · intro x hx
      rcases List.mem_cons.mp hx with h | h
      · rw [h, h2]
      · rw [hcount x h, h2]
    · intro hne
      exact absurd h2 hne

/-- The publish step on a fresh lazyConn that is not closed, with a connection or an
error from the dial: it closes dialFinished once, with exactly one of lc.c and lc.err
set. -/
theorem publish_fresh (w : World) (i : Nat) (lc : lazyConn) (c : Option Nat)
    (err : Option GoError) (now : Time)
    (hlc : w.heap[i]? = some lc) (hcl : lc.closed = false) (hd : lc.dialFinished = false)
    (hc : lc.c = none) (he : lc.err = none) (hout : (c.isSome || err.isSome) = true) :
    ∃ w1 lc1, publish w i c err now = some w1 ∧
      signalCloseCount w1 i = signalCloseCount w i + 1 ∧
      w1.heap[i]? = some lc1 ∧ lc1.dialFinished = true ∧ lc1.closed = false ∧
      lc1.c.isSome ≠ lc1.err.isSome := by
  have hset : ∀ lc1 : lazyConn, (w.heap.set i lc1)[i]? = some lc1 :=
    fun lc1 => getElem?_set_heap w.heap i lc lc1 hlc
  obtain ⟨cl, df, c0, err0, ms⟩ := lc
  simp only at hcl hd hc he
  subst hcl hd hc he
  cases err with
  | some e =>
    exact ⟨{ w with
          heap := w.heap.set i
            { closed := false, dialFinished := true, c := none, err := some e,
              latestRecvMs := ms },
          log := Call.closeDialFinished i :: w.log }, _,
      by simp [publish, hlc, closeSignal], by simp [signalCloseCount], hset _, rfl, rfl,
      by simp⟩
  | none =>
    cases c with
    | none => simp at hout
    | some conn =>
      exact ⟨{ w with
            heap := w.heap.set i
              { closed := false, dialFinished := true, c := some conn, err := none,
                latestRecvMs := unixMilli now },
            log := Call.closeDialFinished i :: w.log }, _,
        by simp [publish, hlc, closeSignal, saveLatestRespRecvTime],
        by simp [signalCloseCount], hset _, rfl, rfl, by simp⟩

/-- C12.  On a lazyConn as asyncDialConn allocates it, every sequence of close() calls
and at most one publish step of the dial goroutine (handing over a connection or an
error), in any order, runs without closing a closed channel: dialFinished is closed at
most once, and in the world right after the step that closes it exactly one of lc.c and
lc.err is set. -/
theorem dialFinished_closed_at_most_once (ops : List LcOp) (w : World) (i : Nat)
    (lc : lazyConn) (hlc : w.heap[i]? = some lc) (hcl : lc.closed = false)
    (hd : lc.dialFinished = false) (hc : lc.c = none) (he : lc.err = none)
    (hone : publishCount ops ≤ 1) (hout : ∀ op ∈ ops, op.hasOutcome = true) :
    ∃ ws, runOps ops w i = some ws ∧
      (∀ w1 ∈ ws, signalCloseCount w1 i ≤ signalCloseCount w i + 1) ∧
      List.Chain (ClosesWithOneOutcome i) w ws := by
  cases ops with
  | nil => exact ⟨[], rfl, by simp, List.Chain.nil⟩
  | cons op rest =>
    have hstep : ∃ w1 lc1, lcStep w i op = some w1 ∧
        signalCloseCount w1 i = signalCloseCount w i + 1 ∧
        w1.heap[i]? = some lc1 ∧ lc1.dialFinished = true ∧
        lc1.c.isSome ≠ lc1.err.isSome ∧
        (lc1.closed = true ∨ publishCount rest = 0) := by
      cases op with
      | close =>
        have h1 := lazyConnClose_dialing w i lc hlc hcl hd
        refine ⟨_, _, h1, by simp [signalCloseCount],
          getElem?_set_heap w.heap i lc _ hlc, rfl, ?_, Or.inl rfl⟩
        simp [hc]
      | publish c err now =>
        have ho : (c.isSome || err.isSome) = true :=
          hout (LcOp.publish c err now) (List.mem_cons_self _ _)
        obtain ⟨w1, lc1, h1, h2, h3, h4, _, h6⟩ :=
          publish_fresh w i lc c err now hlc hcl hd hc he ho
        refine ⟨w1, lc1, h1, h2, h3, h4, h6, Or.inr ?_⟩
        simp [publishCount] at hone
        simpa [publishCount] using hone
    obtain ⟨w1, lc1, h1, h2, h3, h4, h5, h6⟩ := hstep
    obtain ⟨ws, hr, hcount, hchain⟩ := runOps_finished rest w1 i lc1 h3 h4 h6
    refine ⟨w1 :: ws, by simp [runOps, h1, hr], ?_, List.Chain.cons ?_ hchain⟩
    · intro x hx
      rcases List.mem_cons.mp hx with h | h
      · rw [h, h2]
      · rw [hcount x h, h2]
    · intro _
      exact ⟨h2, lc1, h3, h4, h5⟩

/-- C12 on the dialing sample world: close(), the late publish step, close() again. -/
theorem dialFinished_closed_at_most_once_witness :
    dialingWorld.heap[0]? = some newLazyConn ∧ publishCount closeDuringDial ≤ 1 ∧
    (∀ op ∈ closeDuringDial, op.hasOutcome = true) ∧
    ∃ ws, runOps closeDuringDial dialingWorld 0 = some ws ∧
      (∀ w1 ∈ ws, signalCloseCount w1 0 ≤ signalCloseCount dialingWorld 0 + 1) ∧
      List.Chain (ClosesWithOneOutcome 0) dialingWorld ws :=
  have hout : ∀ op ∈ closeDuringDial, op.hasOutcome = true := by
    intro op hop
    simp only [closeDuringDial, List.mem_cons, List.mem_singleton, List.not_mem_nil,
      or_false] at hop
    rcases hop with h | h | h <;> rw [h] <;> rfl
  ⟨rfl, by decide, hout,
    dialFinished_closed_at_most_once closeDuringDial dialingWorld 0 newLazyConn rfl rfl rfl
      rfl rfl (by decide) hout⟩

end Doq
